import Mathlib

/-!
Verification of the dynamic-rate-calculation repository.

The repository is a full-stack car-insurance premium simulator: a FastAPI
backend (rate composition, premium calculation, MySQL persistence with soft
delete, Redis cache-aside layer, layered configuration) and a React frontend
(zod validation schemas, formatting helpers, edit/create form flow).

The snapshot under verification contains the backend's documentation
(api/README.md), the database schema (mysql/init.sql), the docker
orchestration, and the complete frontend sources; the backend Python modules
themselves are not part of the snapshot.  Components that exist as source
files (the zod schemas, the formatters, the response-to-form mapping) are
embedded directly from that source; the backend engine, repository, cache
layer and configuration resolution are modelled from the specification, as
marked on each definition.

Numbers: monetary amounts, rates and percentages are modelled as exact
rationals (ℚ); years as integers (ℤ).  The spec's 2-digit/5-digit decimal
representations are treated as a storage detail.  Strings are modelled by
Lean `String` (a packed `List Char`), matching JavaScript's view of a string
as a sequence of characters.
-/

namespace DynRate

/-! ## Value objects (spec §3; backend value objects modelled from the spec) -/

/-- Modelled from the spec: the `CarInfo` value object of the backend domain
layer (absent from the snapshot).  Fields per spec §3. -/
structure CarInfo where
  make : String
  model : String
  year : ℤ
  value : ℚ
deriving Repr, DecidableEq

/-- Modelled from the spec: validity invariant of `CarInfo` (spec §3):
non-empty make and model, plausible year range, strictly positive value. -/
def CarInfo.valid (currentYear : ℤ) (car : CarInfo) : Prop :=
  car.make ≠ "" ∧ car.model ≠ "" ∧ 1900 ≤ car.year ∧
  car.year ≤ currentYear + 1 ∧ 0 < car.value

instance (currentYear : ℤ) (car : CarInfo) :
    Decidable (CarInfo.valid currentYear car) := by
  unfold CarInfo.valid; infer_instance

/-- Modelled from the spec: the `Address` value object of the backend domain
layer (absent from the snapshot).  Fields per spec §3 / mysql/init.sql. -/
structure Address where
  street : String
  number : String
  complement : Option String
  neighborhood : String
  city : String
  state : String
  postal_code : String
  country : String
deriving Repr, DecidableEq

/-! ## Config provider (spec §4.2; backend settings module absent) -/

/-- Modelled from the spec: the calculation-parameter table exposed by the
config provider (spec §4.2): base rate, age and value adjustment rates, value
step, coverage percentage, and the state-keyed GIS table. -/
structure InsuranceConfig where
  baseRate : ℚ
  ageAdjustmentRate : ℚ
  valueAdjustmentRate : ℚ
  valueAdjustmentStep : ℚ
  coveragePercentage : ℚ
  gisTable : List (String × ℚ)
deriving Repr, DecidableEq

/-- Modelled from the spec: `gisRate(stateCode)` returns the table entry, or
0 if the state is absent from the table (spec §4.2). -/
def gisRate (cfg : InsuranceConfig) (stateCode : String) : ℚ :=
  match cfg.gisTable.find? (fun p => p.1 = stateCode) with
  | some p => p.2
  | none => 0

/-- Modelled from the spec: per-field configuration resolution with
precedence environment variables > external JSON file > built-in defaults
(spec §4.2): the environment value wins when set, otherwise the JSON file
value when the file supplies the field, otherwise the built-in default. -/
def resolveField {F V : Type} (env fileJson : F → Option V)
    (defaults : F → V) (f : F) : V :=
  match env f with
  | some v => v
  | none =>
    match fileJson f with
    | some v => v
    | none => defaults f

/-! ## Rate composition engine (spec §4.3; backend calculator absent) -/

/-- Modelled from the spec: `composeRate` (spec §4.3 pseudocode).  Age in
years is clamped at zero; the value term is the floor of value/step times
the value adjustment rate; when an address is present the GIS rate of its
state is added and returned as the second component. -/
def composeRate (cfg : InsuranceConfig) (currentYear : ℤ) (car : CarInfo)
    (addr : Option Address) : ℚ × Option ℚ :=
  let ageYears : ℤ := max 0 (currentYear - car.year)
  let rate : ℚ := cfg.baseRate + cfg.ageAdjustmentRate * (ageYears : ℚ)
      + ((⌊car.value / cfg.valueAdjustmentStep⌋ : ℤ) : ℚ) * cfg.valueAdjustmentRate
  match addr with
  | some a => (rate + gisRate cfg a.state, some (gisRate cfg a.state))
  | none => (rate, none)

/-- The GIS contribution of an optional address to the composed rate. -/
def gisTerm (cfg : InsuranceConfig) (addr : Option Address) : ℚ :=
  match addr with
  | some a => gisRate cfg a.state
  | none => 0

/-! ## Premium calculator (spec §4.4; backend calculator absent) -/

/-- Result record of the premium calculator: the derived fields of the
calculation aggregate (spec §3, §4.4). -/
structure PremiumResult where
  appliedRate : ℚ
  gisAdjustment : Option ℚ
  deductibleValue : ℚ
  calculatedPremium : ℚ
  policyLimit : ℚ
  brokerFee : ℚ
deriving Repr, DecidableEq

/-- Modelled from the spec: the premium calculator (spec §4.4 pseudocode):
`basePremium = value * rate`, `deductibleValue = basePremium * deductible`,
`calculatedPremium = basePremium - deductibleValue + brokerFee`,
`policyLimit = value * coveragePercentage - basePremium * deductible`. -/
def calculatePremium (cfg : InsuranceConfig) (currentYear : ℤ) (car : CarInfo)
    (deductiblePercentage : ℚ) (brokerFee : ℚ) (addr : Option Address) :
    PremiumResult :=
  let rg := composeRate cfg currentYear car addr
  let basePremium := car.value * rg.1
  let deductibleValue := basePremium * deductiblePercentage
  { appliedRate := rg.1
    gisAdjustment := rg.2
    deductibleValue := deductibleValue
    calculatedPremium := basePremium - deductibleValue + brokerFee
    policyLimit := car.value * cfg.coveragePercentage
        - basePremium * deductiblePercentage
    brokerFee := brokerFee }

/-- Premium as a function of the composed rate, for fixed car value,
deductible percentage and broker fee. -/
def premiumFromRate (value rate deductible fee : ℚ) : ℚ :=
  value * rate - (value * rate) * deductible + fee

/-! ## Worked example inputs (spec §8) -/

/-- The configuration of the spec §8 worked example. -/
def exampleConfig : InsuranceConfig :=
  { baseRate := 0
    ageAdjustmentRate := 5 / 1000
    valueAdjustmentRate := 5 / 1000
    valueAdjustmentStep := 10000
    coveragePercentage := 1
    gisTable := [("SP", 2 / 100)] }

/-- The car of the spec §8 worked example: value 50000, five years old
relative to the example current year 2025. -/
def exampleCar : CarInfo :=
  { make := "VW", model := "Gol", year := 2020, value := 50000 }

/-- The address of the spec §8 second worked example (state SP). -/
def exampleAddress : Address :=
  { street := "Av Paulista", number := "1000", complement := none
    neighborhood := "Bela Vista", city := "Sao Paulo", state := "SP"
    postal_code := "01310100", country := "BR" }

/-! ## Repository with soft delete (spec §4.5; backend repository absent).
Aggregate ids are modelled by naturals (opaque identifiers), aggregate
payloads by a type parameter. -/

/-- A persisted row: the aggregate payload together with the soft-delete
marker (`deleted = true` models `deleted_at != null`, cf. mysql/init.sql). -/
structure Row (α : Type) where
  val : α
  deleted : Bool
deriving Repr, DecidableEq

/-- Association-list lookup by id over persisted rows. -/
def rowsFind {α : Type} (rows : List (Nat × α)) (id : Nat) : Option α :=
  match rows with
  | [] => none
  | (k, v) :: rest => if k = id then some v else rowsFind rest id

/-- Modelled from the spec: the backing store of the repository — rows keyed
by aggregate id, each carrying the soft-delete marker. -/
abbrev Repo (α : Type) : Type := List (Nat × Row α)

/-- Modelled from the spec: `findById` filters out rows with a non-null
deletion marker (spec §4.5). -/
def repoFindById {α : Type} (r : Repo α) (id : Nat) : Option α :=
  match rowsFind r id with
  | some row => if row.deleted then none else some row.val
  | none => none

/-- The active (not soft-deleted) rows of the store, as (id, payload)
pairs, in storage order. -/
def activeRows {α : Type} (r : Repo α) : List (Nat × α) :=
  (r.filter (fun p => !p.2.deleted)).map (fun p => (p.1, p.2.val))

/-- Modelled from the spec: `listActive(offset, limit)` — the active rows,
paginated (spec §4.5). -/
def repoListActive {α : Type} (r : Repo α) (offset limit : Nat) :
    List (Nat × α) :=
  ((activeRows r).drop offset).take limit

/-- Modelled from the spec: `save(aggregate)` — inserts a new row with the
caller-supplied id; a duplicate id is rejected, not silently re-applied
(spec §5). -/
def repoSave {α : Type} (r : Repo α) (id : Nat) (x : α) : Option (Repo α) :=
  match rowsFind r id with
  | some _ => none
  | none => some ((id, ⟨x, false⟩) :: r)

/-- Modelled from the spec: `update(id, newAggregate)` — full replacement of
the row for an existing active aggregate; unknown or soft-deleted ids are
not found (spec §3 lifecycle, §4.5, §7). -/
def repoUpdate {α : Type} (r : Repo α) (id : Nat) (x : α) : Option (Repo α) :=
  match repoFindById r id with
  | none => none
  | some _ => some (r.map (fun p => if p.1 = id then (p.1, ⟨x, false⟩) else p))

/-- Modelled from the spec: `softDelete(id)` — sets the deletion marker of a
physically present row; deleting an already-deleted id is a no-op success,
only an unknown id is not found (spec §4.5). -/
def repoSoftDelete {α : Type} (r : Repo α) (id : Nat) : Option (Repo α) :=
  match rowsFind r id with
  | none => none
  | some _ =>
    some (r.map (fun p => if p.1 = id then (p.1, ⟨p.2.val, true⟩) else p))

/-! ## Cache-aside layer (spec §4.6; backend cache layer absent) -/

/-- Modelled from the spec: the state of the cache-aside layer wrapping the
repository: the backing store, the single-item cache keyed by aggregate id,
and the list cache keyed by pagination parameters (offset, limit). -/
structure CachedStore (α : Type) where
  repo : Repo α
  itemCache : List (Nat × α)
  listCache : List ((Nat × Nat) × List (Nat × α))
deriving DecidableEq

/-- Modelled from the spec: cache-aside read of a single item — try the
cache; on a miss read the repository and populate the cache (spec §4.6).
Returns the read result together with the post-read state. -/
def cachedFindById {α : Type} (s : CachedStore α) (id : Nat) :
    Option α × CachedStore α :=
  match rowsFind s.itemCache id with
  | some v => (some v, s)
  | none =>
    match repoFindById s.repo id with
    | some v =>
      (some v, { s with itemCache := (id, v) :: s.itemCache })
    | none => (none, s)

/-- Modelled from the spec: mutation-side cache invalidation — drop the
single-item key of the mutated id and every list/pagination key (spec §4.6). -/
def invalidate {α : Type} (s : CachedStore α) (id : Nat) (r : Repo α) :
    CachedStore α :=
  { repo := r
    itemCache := s.itemCache.filter (fun p => p.1 ≠ id)
    listCache := [] }

/-- Modelled from the spec: cache-aside `update` — write to the repository,
then invalidate the corresponding cache entries (spec §4.6). -/
def cachedUpdate {α : Type} (s : CachedStore α) (id : Nat) (x : α) :
    Option (CachedStore α) :=
  (repoUpdate s.repo id x).map (invalidate s id)

/-- Modelled from the spec: cache-aside `save` (spec §4.6). -/
def cachedSave {α : Type} (s : CachedStore α) (id : Nat) (x : α) :
    Option (CachedStore α) :=
  (repoSave s.repo id x).map (invalidate s id)

/-- Modelled from the spec: cache-aside `softDelete` (spec §4.6). -/
def cachedSoftDelete {α : Type} (s : CachedStore α) (id : Nat) :
    Option (CachedStore α) :=
  (repoSoftDelete s.repo id).map (invalidate s id)

/-! ## Frontend validation schema (src/frontend/src/validation/insuranceSchema.ts) -/

/-- The base form data validated by `insuranceBaseSchema`
(insuranceSchema.ts).  JavaScript numbers are modelled as exact rationals;
the zod `.int()` check becomes the denominator-one test. -/
structure InsuranceBaseFormData where
  make : String
  model : String
  year : ℚ
  value : ℚ
  deductible_percentage : ℚ
  broker_fee : ℚ
deriving Repr, DecidableEq

/-- Embedding of `insuranceBaseSchema` (insuranceSchema.ts lines 5–26):
make/model non-empty, year an integer between 1900 and currentYear + 1,
value positive, deductible percentage in [0, 1], broker fee non-negative. -/
def insuranceBaseAccepts (currentYear : ℤ) (d : InsuranceBaseFormData) : Bool :=
  decide (1 ≤ d.make.length) && decide (1 ≤ d.model.length)
  && decide (d.year.den = 1)
  && decide ((1900 : ℚ) ≤ d.year) && decide (d.year ≤ (currentYear : ℚ) + 1)
  && decide ((0 : ℚ) < d.value)
  && decide ((0 : ℚ) ≤ d.deductible_percentage)
  && decide (d.deductible_percentage ≤ 1)
  && decide ((0 : ℚ) ≤ d.broker_fee)

/-- The invariant stated by the spec for the calculation inputs (spec §3,
§4.1): the `CarInfo` invariants, the deductible-percentage range, and the
non-negativity that `Money` imposes on the broker fee. -/
def ValidCalculationInput (currentYear : ℤ) (d : InsuranceBaseFormData) : Prop :=
  d.make ≠ "" ∧ d.model ≠ "" ∧
  (∃ y : ℤ, d.year = (y : ℚ) ∧ 1900 ≤ y ∧ y ≤ currentYear + 1) ∧
  0 < d.value ∧
  0 ≤ d.deductible_percentage ∧ d.deductible_percentage ≤ 1 ∧
  0 ≤ d.broker_fee

/-- The address form data validated by `addressSchema` (insuranceSchema.ts). -/
structure AddressFormData where
  street : String
  number : String
  complement : Option String
  neighborhood : String
  city : String
  state : String
  postal_code : String
  country : String
deriving Repr, DecidableEq

/-- Exactly three digit characters. -/
def threeDigits : List Char → Bool
  | [x, y, z] => x.isDigit && y.isDigit && z.isDigit
  | _ => false

/-- Tail of the CEP regex after the first five digits: an optional hyphen
followed by exactly three digits (`-?\d\x7b3\x7d$`).  When the next
character is a hyphen the regex must consume it (backtracking to the empty
alternative would put the hyphen under `\d` and fail). -/
def cepTailMatches (l : List Char) : Bool :=
  match l with
  | [] => false
  | ch :: rest => if ch = '-' then threeDigits rest else threeDigits (ch :: rest)

/-- The CEP regex on a character sequence: five digits, an optional hyphen,
three digits, end of input. -/
def cepListMatches (l : List Char) : Bool :=
  match l with
  | a :: b :: c :: d :: e :: rest =>
      a.isDigit && b.isDigit && c.isDigit && d.isDigit && e.isDigit
      && cepTailMatches rest
  | _ => false

/-- Embedding of the zod regex `^\d\x7b5\x7d-?\d\x7b3\x7d$` of
`addressSchema.postal_code` (insuranceSchema.ts line 35). -/
def cepRegexMatches (s : String) : Bool :=
  cepListMatches s.data

/-- Embedding of `addressSchema` (insuranceSchema.ts lines 28–37):
street/number/neighborhood/city non-empty, state exactly 2 characters,
postal code of length at least 8 matching the CEP regex, country exactly 2
characters; the optional complement is unconstrained.  (The `.default('BR')`
on country only fills an absent field and is immaterial to acceptance of a
present value.) -/
def addressAccepts (a : AddressFormData) : Bool :=
  decide (1 ≤ a.street.length) && decide (1 ≤ a.number.length)
  && decide (1 ≤ a.neighborhood.length) && decide (1 ≤ a.city.length)
  && decide (a.state.length = 2)
  && decide (8 ≤ a.postal_code.length) && cepRegexMatches a.postal_code
  && decide (a.country.length = 2)

/-- The postal-code shape actually accepted by the schema, stated
descriptively: either exactly eight digits, or five digits, a hyphen and
three digits. -/
def CepShape (s : String) : Prop :=
  (s.data.length = 8 ∧ ∀ c ∈ s.data, c.isDigit = true) ∨
  (∃ a b c d e x y z : Char,
    s.data = [a, b, c, d, e, '-', x, y, z] ∧
    ∀ ch ∈ [a, b, c, d, e, x, y, z], ch.isDigit = true)

/-- Embedding of the postal-code normalization in `handlePrepareSubmit`
(InsuranceForm component, `addressData.postal_code.replace(/\D/g, '')`):
the submitted postal code keeps only the digit characters. -/
def prepareSubmitPostalCode (a : AddressFormData) : String :=
  ⟨a.postal_code.data.filter Char.isDigit⟩

/-- A concrete address the zod schema accepts although its state is not two
letters and its postal code is not eight digits. -/
def exampleOddAddress : AddressFormData :=
  { street := "Rua A", number := "1", complement := none
    neighborhood := "Centro", city := "Sao Paulo", state := "12"
    postal_code := "12345-678", country := "BR" }

/-! ## Frontend edit-flow mapping (src/frontend/src/App.tsx) -/

/-- The calculation response record consumed by the frontend
(src/frontend/src/types/insurance.ts, `InsuranceCalculationResponseData`);
fields not read by the mapping under verification carry their types only. -/
structure InsuranceCalculationResponseData where
  id : String
  timestamp : String
  car_make : String
  car_model : String
  car_year : ℚ
  car_value : ℚ
  applied_rate : ℚ
  calculated_premium : ℚ
  deductible_value : ℚ
  policy_limit : ℚ
  gis_adjustment : Option ℚ
  broker_fee : ℚ
  registration_location : Option AddressFormData
deriving Repr, DecidableEq

/-- Embedding of `mapResponseToBaseFormData` (App.tsx / InsurancePage,
non-null branch): copies make, model, year, value and broker fee from the
stored calculation and sets the deductible percentage to the constant
`defaultDeductible = 0.10`. -/
def mapResponseToBaseFormData (resp : InsuranceCalculationResponseData) :
    InsuranceBaseFormData :=
  { make := resp.car_make
    model := resp.car_model
    year := resp.car_year
    value := resp.car_value
    deductible_percentage := 1 / 10
    broker_fee := resp.broker_fee }

/-! ## Frontend CEP formatter (src/frontend/src/utils/formatters.ts) -/

/-- Embedding of `cep.replace(/\D/g, '')` (formatters.ts): keep only digit
characters. -/
def stripNonDigits (l : List Char) : List Char := l.filter Char.isDigit

/-- Embedding of `.replace(/^(\d\x7b5\x7d)(\d)/, '$1-$2')` (formatters.ts):
when the string starts with six digits, insert a hyphen after the fifth;
otherwise the anchored regex does not match and the string is unchanged. -/
def cepHyphenate (l : List Char) : List Char :=
  match l with
  | a :: b :: c :: d :: e :: f :: rest =>
    if a.isDigit && b.isDigit && c.isDigit && d.isDigit && e.isDigit
        && f.isDigit
    then a :: b :: c :: d :: e :: '-' :: f :: rest
    else l
  | l => l

/-- Embedding of `formatCep` (formatters.ts lines 33–38) on a present
string: strip non-digits, hyphenate after the fifth digit, slice to at most
nine characters. -/
def formatCep (s : String) : String :=
  ⟨(cepHyphenate (stripNonDigits s.data)).take 9⟩

/-! ## Concrete states for the persistence claims -/

/-- A concrete cached store: one active row, a stale single-item cache
entry for it, and a populated list cache. -/
def exampleStore : CachedStore Nat :=
  { repo := [(1, ⟨10, false⟩)]
    itemCache := [(1, 10)]
    listCache := [((0, 10), [(1, 10)])] }

/-- The store obtained from `exampleStore` by updating aggregate 1 to 99. -/
def exampleStoreAfter : CachedStore Nat :=
  { repo := [(1, ⟨99, false⟩)]
    itemCache := []
    listCache := [] }

/-- A concrete repository with one active row. -/
def exampleRepo : Repo Nat := [(7, ⟨42, false⟩)]

/-- Concrete configuration sources for the precedence claim: the
environment sets field 0 only, the JSON file sets fields 0 and 1, defaults
cover everything. -/
def exampleEnvSource : Nat → Option ℚ :=
  fun f => if f = 0 then some 5 else none

/-- The JSON-file source of the precedence example. -/
def exampleJsonSource : Nat → Option ℚ :=
  fun f => if f ≤ 1 then some 7 else none

/-- The built-in defaults of the precedence example. -/
def exampleDefaults : Nat → ℚ := fun _ => 3

/-! ## Theorems -/

/-- Claim C1: for every valid car and optional address, the composed rate is
baseRate + ageAdjustmentRate * max(0, currentYear - year) +
floor(value / valueAdjustmentStep) * valueAdjustmentRate, plus the GIS rate
of the address state when an address is present; the age term is clamped at
zero for future model years, and for year = currentYear it contributes 0. -/
theorem composeRate_spec (cfg : InsuranceConfig) (currentYear : ℤ)
    (car : CarInfo) (addr : Option Address)
    (hcar : CarInfo.valid currentYear car) :
    (composeRate cfg currentYear car addr).1
      = cfg.baseRate
        + cfg.ageAdjustmentRate * ((max 0 (currentYear - car.year) : ℤ) : ℚ)
        + ((⌊car.value / cfg.valueAdjustmentStep⌋ : ℤ) : ℚ)
            * cfg.valueAdjustmentRate
        + gisTerm cfg addr
    ∧ (currentYear < car.year →
        ((max 0 (currentYear - car.year) : ℤ) : ℚ) = 0)
    ∧ (car.year = currentYear →
        (composeRate cfg currentYear car addr).1
          = cfg.baseRate
            + ((⌊car.value / cfg.valueAdjustmentStep⌋ : ℤ) : ℚ)
                * cfg.valueAdjustmentRate
            + gisTerm cfg addr) := by
  refine ⟨?_, ?_, ?_⟩
  · cases addr <;> simp [composeRate, gisTerm]
  · intro h
    have hmax : max 0 (currentYear - car.year) = 0 := by omega
    rw [hmax]; norm_num
  · intro h
    have hmax : max 0 (currentYear - car.year) = 0 := by omega
    cases addr <;> simp [composeRate, gisTerm, hmax]

/-- Witness for C1 at the spec §8 worked example: current year 2025, a 2020
car of value 50000, rates 0.005, step 10000, base rate 0, no address; the
composed rate evaluates to 0.05. -/
theorem composeRate_spec_witness :
    CarInfo.valid 2025 exampleCar
    ∧ (composeRate exampleConfig 2025 exampleCar none).1
      = exampleConfig.baseRate
        + exampleConfig.ageAdjustmentRate
            * ((max 0 (2025 - exampleCar.year) : ℤ) : ℚ)
        + ((⌊exampleCar.value / exampleConfig.valueAdjustmentStep⌋ : ℤ) : ℚ)
            * exampleConfig.valueAdjustmentRate
        + gisTerm exampleConfig none
    ∧ (composeRate exampleConfig 2025 exampleCar none).1 = 1 / 20 :=
  ⟨by decide,
   (composeRate_spec exampleConfig 2025 exampleCar none (by decide)).1,
   by norm_num [composeRate, exampleConfig, exampleCar]⟩

/-- Claim C2: for every valid car, deductible percentage in range, broker
fee and optional address, the calculator returns
calculatedPremium = basePremium - deductibleValue + brokerFee with
basePremium = value * rate and deductibleValue = basePremium * deductible,
and policyLimit = value * coveragePercentage - basePremium * deductible,
the deductible base of the policy limit being basePremium itself. -/
theorem calculatePremium_spec (cfg : InsuranceConfig) (currentYear : ℤ)
    (car : CarInfo) (deductible fee : ℚ) (addr : Option Address)
    (hcar : CarInfo.valid currentYear car)
    (hd0 : 0 ≤ deductible) (hd1 : deductible ≤ 1) :
    (calculatePremium cfg currentYear car deductible fee addr).calculatedPremium
      = car.value * (composeRate cfg currentYear car addr).1
        - (car.value * (composeRate cfg currentYear car addr).1) * deductible
        + fee
    ∧ (calculatePremium cfg currentYear car deductible fee addr).deductibleValue
      = (car.value * (composeRate cfg currentYear car addr).1) * deductible
    ∧ (calculatePremium cfg currentYear car deductible fee addr).policyLimit
      = car.value * cfg.coveragePercentage
        - (car.value * (composeRate cfg currentYear car addr).1) * deductible := by
  refine ⟨rfl, rfl, rfl⟩

/-- Witness for C2 at the spec §8 worked example: deductible 0.10, broker
fee 100; premium 2350 and policy limit 49750. -/
theorem calculatePremium_spec_witness :
    (CarInfo.valid 2025 exampleCar ∧ (0 : ℚ) ≤ 1 / 10 ∧ (1 : ℚ) / 10 ≤ 1)
    ∧ (calculatePremium exampleConfig 2025 exampleCar (1 / 10) 100 none).calculatedPremium
      = exampleCar.value * (composeRate exampleConfig 2025 exampleCar none).1
        - (exampleCar.value * (composeRate exampleConfig 2025 exampleCar none).1)
            * (1 / 10)
        + 100
    ∧ (calculatePremium exampleConfig 2025 exampleCar (1 / 10) 100 none).calculatedPremium
      = 2350
    ∧ (calculatePremium exampleConfig 2025 exampleCar (1 / 10) 100 none).policyLimit
      = 49750 :=
  ⟨⟨by decide, by norm_num, by norm_num⟩,
   (calculatePremium_spec exampleConfig 2025 exampleCar (1 / 10) 100 none
      (by decide) (by norm_num) (by norm_num)).1,
   by norm_num [calculatePremium, composeRate, exampleConfig, exampleCar],
   by norm_num [calculatePremium, composeRate, exampleConfig, exampleCar]⟩

/-- Claim C6: the value-step term floor(value/step) is monotonically
non-decreasing in the value for a fixed positive step, and for a fixed
deductible percentage in [0, 1] and fixed broker fee the calculated premium
is monotonically non-decreasing in the composed rate; the calculator's
premium is exactly that function of the composed rate. -/
theorem monotonicity_spec (step v1 v2 v r1 r2 d fee : ℚ)
    (hstep : 0 < step) (hv12 : v1 ≤ v2) (hv : 0 ≤ v)
    (hd0 : 0 ≤ d) (hd1 : d ≤ 1) (hr : r1 ≤ r2) :
    ⌊v1 / step⌋ ≤ ⌊v2 / step⌋
    ∧ premiumFromRate v r1 d fee ≤ premiumFromRate v r2 d fee
    ∧ (∀ (cfg : InsuranceConfig) (cy : ℤ) (car : CarInfo)
        (addr : Option Address),
        (calculatePremium cfg cy car d fee addr).calculatedPremium
          = premiumFromRate car.value (composeRate cfg cy car addr).1 d fee) := by
  refine ⟨?_, ?_, fun _ _ _ _ => rfl⟩
  · exact Int.floor_le_floor (by gcongr)
  · have h1 : v * r1 ≤ v * r2 := mul_le_mul_of_nonneg_left hr hv
    have h2 : (v * r1) * (1 - d) ≤ (v * r2) * (1 - d) :=
      mul_le_mul_of_nonneg_right h1 (by linarith)
    simp only [premiumFromRate]
    nlinarith [h2]

/-- Witness for C6 at concrete numbers: step 10000, values 15000 ≤ 25000,
car value 50000, rates 0.05 ≤ 0.07, deductible 0.10, fee 100. -/
theorem monotonicity_spec_witness :
    ((0 : ℚ) < 10000 ∧ (15000 : ℚ) ≤ 25000 ∧ (0 : ℚ) ≤ 50000
      ∧ (0 : ℚ) ≤ 1 / 10 ∧ (1 : ℚ) / 10 ≤ 1 ∧ (1 : ℚ) / 20 ≤ 7 / 100)
    ∧ ⌊(15000 : ℚ) / 10000⌋ ≤ ⌊(25000 : ℚ) / 10000⌋
    ∧ premiumFromRate 50000 (1 / 20) (1 / 10) 100
        ≤ premiumFromRate 50000 (7 / 100) (1 / 10) 100 :=
  ⟨⟨by norm_num, by norm_num, by norm_num, by norm_num, by norm_num,
    by norm_num⟩,
   (monotonicity_spec 10000 15000 25000 50000 (1 / 20) (7 / 100) (1 / 10) 100
      (by norm_num) (by norm_num) (by norm_num) (by norm_num) (by norm_num)
      (by norm_num)).1,
   (monotonicity_spec 10000 15000 25000 50000 (1 / 20) (7 / 100) (1 / 10) 100
      (by norm_num) (by norm_num) (by norm_num) (by norm_num) (by norm_num)
      (by norm_num)).2.1⟩

/-- Claim C5: configuration is resolved field-by-field with precedence
environment > JSON file > defaults: a field set in the environment takes
that value; otherwise a field supplied by the JSON file takes that value;
otherwise the built-in default applies; and the resolution of a field
depends only on what the three sources say about that very field, so a
source setting some fields does not erase other fields from
lower-precedence sources. -/
theorem resolveField_precedence {F V : Type} (env fileJson : F → Option V)
    (defaults : F → V) (f : F) :
    (∀ v, env f = some v → resolveField env fileJson defaults f = v)
    ∧ (env f = none → ∀ v, fileJson f = some v →
        resolveField env fileJson defaults f = v)
    ∧ (env f = none → fileJson f = none →
        resolveField env fileJson defaults f = defaults f)
    ∧ (∀ (env2 fileJson2 : F → Option V) (defaults2 : F → V),
        env2 f = env f → fileJson2 f = fileJson f → defaults2 f = defaults f →
        resolveField env2 fileJson2 defaults2 f
          = resolveField env fileJson defaults f) := by
  refine ⟨?_, ?_, ?_, ?_⟩ <;> intros <;> simp_all [resolveField]

/-- Witness for C5 on concrete sources: the environment sets only field 0,
the file sets fields 0 and 1; field 0 resolves to the environment value 5,
field 1 to the file value 7, field 2 to the default 3. -/
theorem resolveField_precedence_witness :
    resolveField exampleEnvSource exampleJsonSource exampleDefaults 0 = 5
    ∧ resolveField exampleEnvSource exampleJsonSource exampleDefaults 1 = 7
    ∧ resolveField exampleEnvSource exampleJsonSource exampleDefaults 2 = 3 :=
  ⟨(resolveField_precedence exampleEnvSource exampleJsonSource
      exampleDefaults 0).1 5 rfl,
   (resolveField_precedence exampleEnvSource exampleJsonSource
      exampleDefaults 1).2.1 rfl 7 rfl,
   (resolveField_precedence exampleEnvSource exampleJsonSource
      exampleDefaults 2).2.2.1 rfl rfl⟩

/-- Filtering out a key makes the lookup of that key miss. -/
theorem rowsFind_filter_ne {α : Type} (l : List (Nat × α)) (id : Nat) :
    rowsFind (l.filter (fun p => p.1 ≠ id)) id = none := by
  induction l with
  | nil => rfl
  | cons p rest ih =>
    by_cases h : p.1 = id
    · simpa [List.filter_cons, h] using ih
    · simpa [List.filter_cons, h, rowsFind] using ih

/-- Unfolding lemma: lookup on a cons cell. -/
theorem rowsFind_cons {α : Type} (k : Nat) (v : α) (l : List (Nat × α))
    (j : Nat) :
    rowsFind ((k, v) :: l) j = if k = j then some v else rowsFind l j := rfl

/-- Lookup after replacing the row of one id wholesale. -/
theorem rowsFind_replace {α : Type} (r : Repo α) (id j : Nat) (row : Row α) :
    rowsFind (r.map (fun p => if p.1 = id then (p.1, row) else p)) j
      = if j = id then (rowsFind r j).map (fun _ => row) else rowsFind r j := by
  induction r with
  | nil => simp [rowsFind]
  | cons p rest ih =>
    obtain ⟨k, v⟩ := p
    simp only [List.map_cons]
    by_cases hk : k = id
    · rw [if_pos hk, rowsFind_cons, rowsFind_cons, ih]
      by_cases hkj : k = j
      · subst hkj
        simp [hk]
      · have hj : ¬ j = id := fun hcon => hkj (by rw [hk, hcon])
        simp [hkj, hj]
    · rw [if_neg hk, rowsFind_cons, rowsFind_cons, ih]
      by_cases hkj : k = j
      · subst hkj
        have hj : ¬ k = id := hk
        simp [hj]
      · by_cases hj : j = id <;> simp [hkj, hj, hk]

/-- Lookup after marking the row of one id as deleted. -/
theorem rowsFind_markDeleted {α : Type} (r : Repo α) (id j : Nat) :
    rowsFind
        (r.map (fun p => if p.1 = id then (p.1, ⟨p.2.val, true⟩) else p)) j
      = if j = id
        then (rowsFind r j).map (fun row => (⟨row.val, true⟩ : Row α))
        else rowsFind r j := by
  induction r with
  | nil => simp [rowsFind]
  | cons p rest ih =>
    obtain ⟨k, v⟩ := p
    simp only [List.map_cons]
    by_cases hk : k = id
    · rw [if_pos hk, rowsFind_cons, rowsFind_cons, ih]
      by_cases hkj : k = j
      · subst hkj
        simp [hk]
      · have hj : ¬ j = id := fun hcon => hkj (by rw [hk, hcon])
        simp [hkj, hj]
    · rw [if_neg hk, rowsFind_cons, rowsFind_cons, ih]
      by_cases hkj : k = j
      · subst hkj
        have hj : ¬ k = id := hk
        simp [hj]
      · by_cases hj : j = id <;> simp [hkj, hj, hk]

/-- After a soft delete, every active row carries a different id. -/
theorem softDelete_active_ne {α : Type} (r r1 : Repo α) (id : Nat)
    (h : repoSoftDelete r id = some r1) :
    ∀ q ∈ activeRows r1, q.1 ≠ id := by
  unfold repoSoftDelete at h
  cases hf : rowsFind r id with
  | none => rw [hf] at h; exact absurd h (by simp)
  | some row =>
    rw [hf] at h
    simp only [Option.some.injEq] at h
    subst h
    intro q hq
    simp only [activeRows, List.mem_map, List.mem_filter] at hq
    obtain ⟨p, ⟨hp, hact⟩, hqe⟩ := hq
    obtain ⟨p0, hp0, hpe⟩ := hp
    by_cases hid : p0.1 = id
    · rw [if_pos hid] at hpe
      subst hpe
      simp at hact
    · rw [if_neg hid] at hpe
      subst hpe
      subst hqe
      exact hid

/-- Claim C4: softDelete is idempotent — for every physically present id
the first call succeeds, a second call on the result succeeds and returns
the very same state, and after either call the aggregate is absent from
findById and from every listActive page. -/
theorem softDelete_idempotent_spec {α : Type} (r : Repo α) (id : Nat)
    (h : (rowsFind r id).isSome) :
    ∃ r1, repoSoftDelete r id = some r1
      ∧ repoSoftDelete r1 id = some r1
      ∧ repoFindById r1 id = none
      ∧ (∀ offset limit, ∀ q ∈ repoListActive r1 offset limit, q.1 ≠ id) := by
  cases hf : rowsFind r id with
  | none => rw [hf] at h; exact absurd h (by simp)
  | some row =>
    refine ⟨r.map (fun p => if p.1 = id then (p.1, ⟨p.2.val, true⟩) else p),
      ?_, ?_, ?_, ?_⟩
    · unfold repoSoftDelete; rw [hf]
    · unfold repoSoftDelete
      rw [rowsFind_markDeleted, if_pos rfl, hf]
      simp only [Option.map_some', Option.some.injEq]
      rw [List.map_map]
      refine List.map_congr_left (fun p _ => ?_)
      by_cases hp : p.1 = id <;> simp [Function.comp, hp]
    · unfold repoFindById
      rw [rowsFind_markDeleted, if_pos rfl, hf]
      simp
    · intro offset limit q hq
      have hm : q ∈ activeRows
          (r.map (fun p => if p.1 = id then (p.1, ⟨p.2.val, true⟩) else p)) :=
        List.mem_of_mem_drop (List.mem_of_mem_take hq)
      refine softDelete_active_ne r _ id ?_ q hm
      unfold repoSoftDelete; rw [hf]

/-- Witness for C4 on a concrete one-row repository holding id 7. -/
theorem softDelete_idempotent_spec_witness :
    ∃ r1, repoSoftDelete exampleRepo 7 = some r1
      ∧ repoSoftDelete r1 7 = some r1
      ∧ repoFindById r1 7 = none
      ∧ (∀ offset limit, ∀ q ∈ repoListActive r1 offset limit, q.1 ≠ 7) :=
  softDelete_idempotent_spec exampleRepo 7 (by decide)

/-- Claim C3: after a successful cache-aside update of an aggregate, the
next findById returns the freshly written value — never the pre-update one,
whatever the prior cache population was — because every mutation
(save/update/softDelete) leaves the repository written and the single-item
key and all list/pagination keys invalidated. -/
theorem cacheAside_update_consistency {α : Type} (s : CachedStore α)
    (id : Nat) (x : α) (s2 : CachedStore α)
    (h : cachedUpdate s id x = some s2) :
    (cachedFindById s2 id).1 = some x
    ∧ rowsFind s2.itemCache id = none
    ∧ s2.listCache = []
    ∧ (∀ t, cachedSoftDelete s id = some t →
        rowsFind t.itemCache id = none ∧ t.listCache = [])
    ∧ (∀ y t, cachedSave s id y = some t →
        rowsFind t.itemCache id = none ∧ t.listCache = []) := by
  unfold cachedUpdate repoUpdate at h
  cases hf : repoFindById s.repo id with
  | none => rw [hf] at h; exact absurd h (by simp)
  | some v =>
    rw [hf] at h
    simp only [Option.map_some', Option.some.injEq] at h
    subst h
    have hrow : ∃ row, rowsFind s.repo id = some row := by
      unfold repoFindById at hf
      cases hr : rowsFind s.repo id with
      | none => rw [hr] at hf; exact absurd hf (by simp)
      | some row => exact ⟨row, rfl⟩
    obtain ⟨row, hrow⟩ := hrow
    refine ⟨?_, ?_, rfl, ?_, ?_⟩
    · unfold cachedFindById invalidate
      simp only [rowsFind_filter_ne]
      unfold repoFindById
      rw [rowsFind_replace, if_pos rfl, hrow]
      simp
    · exact rowsFind_filter_ne s.itemCache id
    · intro t ht
      unfold cachedSoftDelete at ht
      cases hs : repoSoftDelete s.repo id with
      | none => rw [hs] at ht; exact absurd ht (by simp)
      | some r1 =>
        rw [hs] at ht
        simp only [Option.map_some', Option.some.injEq] at ht
        subst ht
        exact ⟨rowsFind_filter_ne s.itemCache id, rfl⟩
    · intro y t ht
      unfold cachedSave at ht
      cases hs : repoSave s.repo id y with
      | none => rw [hs] at ht; exact absurd ht (by simp)
      | some r1 =>
        rw [hs] at ht
        simp only [Option.map_some', Option.some.injEq] at ht
        subst ht
        exact ⟨rowsFind_filter_ne s.itemCache id, rfl⟩

/-- Witness for C3 on a concrete store whose caches are populated with the
stale pre-update value 10: after updating aggregate 1 to 99, findById
returns 99 and both cache key classes are invalidated. -/
theorem cacheAside_update_consistency_witness :
    (cachedFindById exampleStoreAfter 1).1 = some 99
    ∧ rowsFind exampleStoreAfter.itemCache 1 = none
    ∧ exampleStoreAfter.listCache = []
    ∧ (∀ t, cachedSoftDelete exampleStore 1 = some t →
        rowsFind t.itemCache 1 = none ∧ t.listCache = [])
    ∧ (∀ y t, cachedSave exampleStore 1 y = some t →
        rowsFind t.itemCache 1 = none ∧ t.listCache = []) :=
  cacheAside_update_consistency exampleStore 1 99 exampleStoreAfter (by decide)

/-- A string has length at least one exactly when it is non-empty. -/
theorem one_le_length_iff (s : String) : 1 ≤ s.length ↔ s ≠ "" := by
  rw [Ne, String.ext_iff]
  show 1 ≤ s.data.length ↔ ¬ (s.data = "".data)
  rw [Nat.one_le_iff_ne_zero]
  simp only [String.length, not_iff_not, List.length_eq_zero]

/-- Claim C7: the base-input schema accepts exactly the inputs satisfying
the spec invariants — non-empty make and model, an integer year between
1900 and currentYear + 1, a positive value, a deductible percentage in
[0, 1], and a non-negative (Money) broker fee; every violating input is
rejected and no valid input is rejected. -/
theorem insuranceBaseAccepts_iff (currentYear : ℤ)
    (d : InsuranceBaseFormData) :
    insuranceBaseAccepts currentYear d = true
      ↔ ValidCalculationInput currentYear d := by
  unfold insuranceBaseAccepts ValidCalculationInput
  simp only [Bool.and_eq_true, decide_eq_true_eq]
  constructor
  · rintro ⟨⟨⟨⟨⟨⟨⟨⟨hmk, hmd⟩, hden⟩, h19⟩, hcy⟩, hval⟩, hd0⟩, hd1⟩, hbf⟩
    have hq : d.year = (d.year.num : ℚ) :=
      ((Rat.den_eq_one_iff d.year).mp hden).symm
    refine ⟨(one_le_length_iff _).mp hmk, (one_le_length_iff _).mp hmd,
      ⟨d.year.num, hq, ?_, ?_⟩, hval, hd0, hd1, hbf⟩
    · rw [hq] at h19; exact_mod_cast h19
    · rw [hq] at hcy; exact_mod_cast hcy
  · rintro ⟨hmk, hmd, ⟨y, hy, h19, hcy⟩, hval, hd0, hd1, hbf⟩
    refine ⟨⟨⟨⟨⟨⟨⟨⟨(one_le_length_iff _).mpr hmk,
      (one_le_length_iff _).mpr hmd⟩, ?_⟩, ?_⟩, ?_⟩, hval⟩, hd0⟩, hd1⟩, hbf⟩
    · rw [hy]; exact Rat.den_intCast y
    · rw [hy]; exact_mod_cast h19
    · rw [hy]; exact_mod_cast hcy

/-- Claim C9: for every calculation response, the edit-flow mapping copies
make, model, year, value and broker fee from the stored record but replaces
the deductible percentage with the constant default 0.10, so the stored
deductible is not preserved through the edit flow. -/
theorem mapResponseToBaseFormData_spec
    (resp : InsuranceCalculationResponseData) :
    (mapResponseToBaseFormData resp).deductible_percentage = 1 / 10
    ∧ (mapResponseToBaseFormData resp).make = resp.car_make
    ∧ (mapResponseToBaseFormData resp).model = resp.car_model
    ∧ (mapResponseToBaseFormData resp).year = resp.car_year
    ∧ (mapResponseToBaseFormData resp).value = resp.car_value
    ∧ (mapResponseToBaseFormData resp).broker_fee = resp.broker_fee :=
  ⟨rfl, rfl, rfl, rfl, rfl, rfl⟩

/-- Characterization of the three-trailing-digits matcher. -/
theorem threeDigits_iff (l : List Char) :
    threeDigits l = true ↔
      ∃ x y z, l = [x, y, z] ∧ x.isDigit = true ∧ y.isDigit = true
        ∧ z.isDigit = true := by
  rcases l with _ | ⟨x, _ | ⟨y, _ | ⟨z, _ | ⟨w, t⟩⟩⟩⟩ <;>
    simp [threeDigits, and_assoc]

/-- Characterization of the CEP regex on character sequences: it accepts
exactly eight digits, or five digits, a hyphen and three digits. -/
theorem cepListMatches_iff (l : List Char) :
    cepListMatches l = true ↔
      ((l.length = 8 ∧ ∀ c ∈ l, c.isDigit = true) ∨
       (∃ a b c d e x y z : Char,
         l = [a, b, c, d, e, '-', x, y, z] ∧
         ∀ ch ∈ [a, b, c, d, e, x, y, z], ch.isDigit = true)) := by
  rcases l with _ | ⟨a, _ | ⟨b, _ | ⟨c, _ | ⟨d, _ | ⟨e, rest⟩⟩⟩⟩⟩
  · simp [cepListMatches]
  · simp [cepListMatches]
  · simp [cepListMatches]
  · simp [cepListMatches]
  · simp [cepListMatches]
  · rcases rest with _ | ⟨f, rest2⟩
    · simp [cepListMatches, cepTailMatches]
    · by_cases hf : f = '-'
      · subst hf
        simp only [cepListMatches, cepTailMatches, if_pos rfl, if_true,
          Bool.and_eq_true, threeDigits_iff]
        constructor
        · rintro ⟨⟨⟨⟨⟨ha, hb⟩, hc⟩, hd⟩, he⟩, x, y, z, heq, hx, hy, hz⟩
          subst heq
          exact Or.inr ⟨a, b, c, d, e, x, y, z, rfl, by
            simp [ha, hb, hc, hd, he, hx, hy, hz]⟩
        · rintro (⟨hlen, hdig⟩ | ⟨a2, b2, c2, d2, e2, x, y, z, heq, hdig⟩)
          · exfalso
            have hm : ('-' : Char) ∈
                a :: b :: c :: d :: e :: '-' :: rest2 := by simp
            have hcon := hdig _ hm
            exact absurd hcon (by decide)
          · simp only [List.cons.injEq] at heq
            obtain ⟨rfl, rfl, rfl, rfl, rfl, _, hrest⟩ := heq
            simp only [List.mem_cons, List.not_mem_nil, or_false,
              forall_eq_or_imp, forall_eq] at hdig
            obtain ⟨ha, hb, hc, hd, he, hx, hy, hz⟩ := hdig
            exact ⟨⟨⟨⟨⟨ha, hb⟩, hc⟩, hd⟩, he⟩, x, y, z, hrest, hx, hy, hz⟩
      · simp only [cepListMatches, cepTailMatches, if_neg hf,
          Bool.and_eq_true, threeDigits_iff]
        constructor
        · rintro ⟨⟨⟨⟨⟨ha, hb⟩, hc⟩, hd⟩, he⟩, x, y, z, heq, hx, hy, hz⟩
          simp only [List.cons.injEq] at heq
          obtain ⟨rfl, hrest⟩ := heq
          subst hrest
          refine Or.inl ⟨by simp, ?_⟩
          intro ch hch
          simp only [List.mem_cons, List.not_mem_nil, or_false] at hch
          rcases hch with rfl | rfl | rfl | rfl | rfl | rfl | rfl | rfl <;>
            assumption
        · rintro (⟨hlen, hdig⟩ | ⟨a2, b2, c2, d2, e2, x, y, z, heq, hdig⟩)
          · rcases rest2 with _ | ⟨y, _ | ⟨z, _ | ⟨w, t⟩⟩⟩ <;>
              simp only [List.length_cons, List.length_nil] at hlen
            · omega
            · omega
            · refine ⟨⟨⟨⟨⟨?_, ?_⟩, ?_⟩, ?_⟩, ?_⟩, f, y, z, rfl, ?_, ?_, ?_⟩ <;>
                exact hdig _ (by simp)
            · omega
          · simp only [List.cons.injEq] at heq
            obtain ⟨rfl, rfl, rfl, rfl, rfl, hfe, _⟩ := heq
            exact absurd hfe hf

/-- Characterization of the CEP regex at the string level. -/
theorem cepRegexMatches_iff (s : String) :
    cepRegexMatches s = true ↔ CepShape s := by
  unfold cepRegexMatches CepShape
  exact cepListMatches_iff s.data

/-- Counterexample for claim C8 as stated: the address schema accepts an
address whose state is the two-digit string 12 (not two letters) and whose
postal code is 12345-678 (nine characters with a hyphen, not exactly eight
digits). -/
theorem addressAccepts_counterexample :
    addressAccepts exampleOddAddress = true
    ∧ exampleOddAddress.state.length = 2
    ∧ ¬ (∀ c ∈ exampleOddAddress.state.data, c.isAlpha = true)
    ∧ ¬ (exampleOddAddress.postal_code.length = 8
         ∧ ∀ c ∈ exampleOddAddress.postal_code.data, c.isDigit = true) := by
  refine ⟨by decide, by decide, by decide, by decide⟩

/-- Claim C8 (amended): the address schema accepts exactly the addresses
with non-empty street, number, neighborhood and city, a state of exactly two
characters (not necessarily letters), a postal code that is either eight
digits or five digits, a hyphen and three digits, and a country of exactly
two characters; and for every accepted address the submit handler's
normalization strips the postal code to exactly eight digits. -/
theorem addressAccepts_iff (a : AddressFormData) :
    (addressAccepts a = true ↔
      (a.street ≠ "" ∧ a.number ≠ "" ∧ a.neighborhood ≠ "" ∧ a.city ≠ ""
        ∧ a.state.length = 2 ∧ CepShape a.postal_code
        ∧ a.country.length = 2))
    ∧ (addressAccepts a = true →
        (prepareSubmitPostalCode a).length = 8
        ∧ ∀ c ∈ (prepareSubmitPostalCode a).data, c.isDigit = true) := by
  have hiff : addressAccepts a = true ↔
      (a.street ≠ "" ∧ a.number ≠ "" ∧ a.neighborhood ≠ "" ∧ a.city ≠ ""
        ∧ a.state.length = 2 ∧ CepShape a.postal_code
        ∧ a.country.length = 2) := by
    unfold addressAccepts
    simp only [Bool.and_eq_true, decide_eq_true_eq]
    constructor
    · rintro ⟨⟨⟨⟨⟨⟨⟨hst, hnum⟩, hnb⟩, hct⟩, hstate⟩, hlen8⟩, hcep⟩, hcy⟩
      exact ⟨(one_le_length_iff _).mp hst, (one_le_length_iff _).mp hnum,
        (one_le_length_iff _).mp hnb, (one_le_length_iff _).mp hct,
        hstate, (cepRegexMatches_iff _).mp hcep, hcy⟩
    · rintro ⟨hst, hnum, hnb, hct, hstate, hcep, hcy⟩
      have hlen8 : 8 ≤ a.postal_code.length := by
        show 8 ≤ a.postal_code.data.length
        rcases hcep with ⟨hl, -⟩ | ⟨c1, c2, c3, c4, c5, c6, c7, c8, heq, -⟩
        · omega
        · rw [heq]; simp
      exact ⟨⟨⟨⟨⟨⟨⟨(one_le_length_iff _).mpr hst,
        (one_le_length_iff _).mpr hnum⟩, (one_le_length_iff _).mpr hnb⟩,
        (one_le_length_iff _).mpr hct⟩, hstate⟩, hlen8⟩,
        (cepRegexMatches_iff _).mpr hcep⟩, hcy⟩
  refine ⟨hiff, fun hacc => ?_⟩
  obtain ⟨-, -, -, -, -, hcep, -⟩ := hiff.mp hacc
  have hminus : Char.isDigit '-' = false := by decide
  rcases hcep with ⟨hl, hdig⟩ | ⟨c1, c2, c3, c4, c5, c6, c7, c8, heq, hdig⟩
  · have hfe : a.postal_code.data.filter Char.isDigit = a.postal_code.data :=
      List.filter_eq_self.mpr (fun c hc => hdig c hc)
    constructor
    · show (a.postal_code.data.filter Char.isDigit).length = 8
      rw [hfe]; exact hl
    · intro c hc
      exact (List.mem_filter.mp hc).2
  · simp only [List.mem_cons, List.not_mem_nil, or_false,
      forall_eq_or_imp, forall_eq] at hdig
    obtain ⟨h1, h2, h3, h4, h5, h6, h7, h8⟩ := hdig
    have hfil : a.postal_code.data.filter Char.isDigit
        = [c1, c2, c3, c4, c5, c6, c7, c8] := by
      rw [heq]
      simp [List.filter_cons, h1, h2, h3, h4, h5, h6, h7, h8, hminus]
    constructor
    · show (a.postal_code.data.filter Char.isDigit).length = 8
      rw [hfil]; rfl
    · intro c hc
      rw [show (prepareSubmitPostalCode a).data
          = a.postal_code.data.filter Char.isDigit from rfl, hfil] at hc
      simp only [List.mem_cons, List.not_mem_nil, or_false] at hc
      rcases hc with rfl | rfl | rfl | rfl | rfl | rfl | rfl | rfl <;>
        assumption

/-- Inputs of fewer than six characters are left alone by the anchored
hyphenation regex. -/
theorem cepHyphenate_short (l : List Char) (h : l.length ≤ 5) :
    cepHyphenate l = l := by
  rcases l with _ | ⟨a, _ | ⟨b, _ | ⟨c, _ | ⟨d, _ | ⟨e, _ | ⟨f, t⟩⟩⟩⟩⟩⟩ <;>
    first
      | rfl
      | (simp only [List.length_cons, List.length_nil] at h; omega)

/-- On six leading digits the hyphenation step inserts one hyphen after the
fifth. -/
theorem cepHyphenate_digits (g1 g2 g3 g4 g5 g6 : Char) (t : List Char)
    (h1 : g1.isDigit = true) (h2 : g2.isDigit = true)
    (h3 : g3.isDigit = true) (h4 : g4.isDigit = true)
    (h5 : g5.isDigit = true) (h6 : g6.isDigit = true) :
    cepHyphenate (g1 :: g2 :: g3 :: g4 :: g5 :: g6 :: t)
      = g1 :: g2 :: g3 :: g4 :: g5 :: '-' :: g6 :: t := by
  unfold cepHyphenate
  simp [h1, h2, h3, h4, h5, h6]

/-- Core properties of the CEP formatting pipeline on an all-digit input:
the nine-character slice of the hyphenated digits contains only digits and
at most one hyphen, the hyphen can only sit at index five, the length is at
most nine, and re-running the pipeline on the output reproduces it. -/
theorem formatCep_core (D : List Char) (hdig : ∀ c ∈ D, c.isDigit = true) :
    (∀ c ∈ (cepHyphenate D).take 9, c.isDigit = true ∨ c = '-')
    ∧ ((cepHyphenate D).take 9).count '-' ≤ 1
    ∧ (∀ i : ℕ, ((cepHyphenate D).take 9).get? i = some '-' → i = 5)
    ∧ ((cepHyphenate D).take 9).length ≤ 9
    ∧ (cepHyphenate (((cepHyphenate D).take 9).filter Char.isDigit)).take 9
        = (cepHyphenate D).take 9 := by
  have hminus : Char.isDigit '-' = false := by decide
  by_cases hlen : D.length ≤ 5
  · have hshort : cepHyphenate D = D := cepHyphenate_short D hlen
    have htk : D.take 9 = D := List.take_of_length_le (by omega)
    rw [hshort, htk]
    have h0 : D.count '-' = 0 :=
      List.count_eq_zero.mpr (fun hm => absurd (hdig _ hm) (by simp [hminus]))
    refine ⟨fun c hc => Or.inl (hdig c hc), by omega, ?_, by omega, ?_⟩
    · intro i hi
      exact absurd (hdig _ (List.get?_mem hi)) (by simp [hminus])
    · rw [List.filter_eq_self.mpr hdig, hshort, htk]
  · rcases D with _ | ⟨g1, _ | ⟨g2, _ | ⟨g3, _ | ⟨g4, _ | ⟨g5, _ | ⟨g6, t⟩⟩⟩⟩⟩⟩ <;>
      try (exfalso; simp only [List.length_cons, List.length_nil] at hlen; omega)
    have h1 : g1.isDigit = true := hdig _ (by simp)
    have h2 : g2.isDigit = true := hdig _ (by simp)
    have h3 : g3.isDigit = true := hdig _ (by simp)
    have h4 : g4.isDigit = true := hdig _ (by simp)
    have h5 : g5.isDigit = true := hdig _ (by simp)
    have h6 : g6.isDigit = true := hdig _ (by simp)
    have htdig : ∀ c ∈ t.take 2, c.isDigit = true := by
      intro c hc
      have hct : c ∈ t := List.mem_of_mem_take hc
      exact hdig c (by simp [hct])
    have hne1 : ¬ g1 = '-' := fun hcon => by
      rw [hcon] at h1; rw [hminus] at h1; exact Bool.false_ne_true h1
    have hne2 : ¬ g2 = '-' := fun hcon => by
      rw [hcon] at h2; rw [hminus] at h2; exact Bool.false_ne_true h2
    have hne3 : ¬ g3 = '-' := fun hcon => by
      rw [hcon] at h3; rw [hminus] at h3; exact Bool.false_ne_true h3
    have hne4 : ¬ g4 = '-' := fun hcon => by
      rw [hcon] at h4; rw [hminus] at h4; exact Bool.false_ne_true h4
    have hne5 : ¬ g5 = '-' := fun hcon => by
      rw [hcon] at h5; rw [hminus] at h5; exact Bool.false_ne_true h5
    have hne6 : ¬ g6 = '-' := fun hcon => by
      rw [hcon] at h6; rw [hminus] at h6; exact Bool.false_ne_true h6
    rw [cepHyphenate_digits g1 g2 g3 g4 g5 g6 t h1 h2 h3 h4 h5 h6]
    have htake :
        (g1 :: g2 :: g3 :: g4 :: g5 :: '-' :: g6 :: t).take 9
          = g1 :: g2 :: g3 :: g4 :: g5 :: '-' :: g6 :: t.take 2 := rfl
    rw [htake]
    have ht0 : (t.take 2).count '-' = 0 :=
      List.count_eq_zero.mpr (fun hm => absurd (htdig _ hm) (by simp [hminus]))
    refine ⟨?_, ?_, ?_, ?_, ?_⟩
    · intro c hc
      simp only [List.mem_cons] at hc
      rcases hc with rfl | rfl | rfl | rfl | rfl | rfl | rfl | hct
      · exact Or.inl h1
      · exact Or.inl h2
      · exact Or.inl h3
      · exact Or.inl h4
      · exact Or.inl h5
      · exact Or.inr rfl
      · exact Or.inl h6
      · exact Or.inl (htdig _ hct)
    · simp only [List.count_cons, ht0]
      simp [hne1, hne2, hne3, hne4, hne5, hne6]
    · intro i hi
      rcases i with _ | ⟨_ | ⟨_ | ⟨_ | ⟨_ | ⟨_ | ⟨_ | i⟩⟩⟩⟩⟩⟩
      · simp only [List.get?] at hi
        exact absurd (Option.some.inj hi) hne1
      · simp only [List.get?] at hi
        exact absurd (Option.some.inj hi) hne2
      · simp only [List.get?] at hi
        exact absurd (Option.some.inj hi) hne3
      · simp only [List.get?] at hi
        exact absurd (Option.some.inj hi) hne4
      · simp only [List.get?] at hi
        exact absurd (Option.some.inj hi) hne5
      · rfl
      · simp only [List.get?] at hi
        exact absurd (Option.some.inj hi) hne6
      · simp only [List.get?] at hi
        exact absurd (htdig _ (List.get?_mem hi)) (by simp [hminus])
    · simp only [List.length_cons, List.length_take]
      omega
    · have hfil :
          ((g1 :: g2 :: g3 :: g4 :: g5 :: '-' :: g6 :: t.take 2).filter
              Char.isDigit)
            = g1 :: g2 :: g3 :: g4 :: g5 :: g6 :: t.take 2 := by
        simp [List.filter_cons, h1, h2, h3, h4, h5, h6, hminus,
          List.filter_eq_self.mpr htdig]
      rw [hfil,
        cepHyphenate_digits g1 g2 g3 g4 g5 g6 (t.take 2) h1 h2 h3 h4 h5 h6]
      refine List.take_of_length_le ?_
      simp only [List.length_cons, List.length_take]
      omega

/-- Claim C10: for every input string, the formatted CEP contains only
digits and at most one hyphen, any hyphen sits immediately after the fifth
(digit) character, the output has at most nine characters, and formatCep is
idempotent. -/
theorem formatCep_spec (s : String) :
    (∀ c ∈ (formatCep s).data, c.isDigit = true ∨ c = '-')
    ∧ (formatCep s).data.count '-' ≤ 1
    ∧ (∀ i : ℕ, (formatCep s).data.get? i = some '-' → i = 5)
    ∧ (formatCep s).length ≤ 9
    ∧ formatCep (formatCep s) = formatCep s := by
  have hdig : ∀ c ∈ stripNonDigits s.data, c.isDigit = true :=
    fun c hc => (List.mem_filter.mp hc).2
  obtain ⟨hchars, hcount, hpos, hlen, hidem⟩ :=
    formatCep_core (stripNonDigits s.data) hdig
  exact ⟨hchars, hcount, hpos, hlen, congrArg String.mk hidem⟩

end DynRate
